import Mathlib

/-!
Verification development for the `space_fortress` repository.

The repository's only source file is `src-tauri/src/lib.rs`, a Tauri
bootstrap that declares one SQL migration and registers two plugins before
starting the application.  Section 1 below embeds that bootstrap shallowly.

The specification additionally describes an inferred event-store core
(Schema Migrator, Event Log, Snapshot Store, Replay Engine, Store Facade)
whose code is not present in the repository; sections 2-5 model those
components from the specification's own words and prove the claimed
properties about the models.
-/

namespace SpaceFortress

/-! ## Section 1: the Tauri bootstrap (embedded from src-tauri/src/lib.rs) -/

/-- Mirrors `tauri_plugin_sql::MigrationKind`. -/
inductive MigrationKind where
  | Up
  | Down
deriving DecidableEq, Repr

/-- Mirrors `tauri_plugin_sql::Migration`: a versioned schema migration. -/
structure Migration where
  version : Nat
  description : String
  sql : String
  kind : MigrationKind
deriving DecidableEq, Repr

/-- The migration list built in `run()`.  The SQL text comes from
`include_str!("../migrations/001_event_store.sql")`, a file whose content is
not part of the given source; it is passed in as a parameter since no claim
depends on its text. -/
def migrations (sqlText : String) : List Migration :=
  [{ version := 1
     description := "create event store tables"
     sql := sqlText
     kind := MigrationKind.Up }]

/-- State of the `tauri_plugin_sql::Builder`: the database-name/migration-list
pairs registered via `add_migrations`. -/
structure SqlBuilder where
  migration_dbs : List (String × List Migration)
deriving Repr

/-- Mirrors `tauri_plugin_sql::Builder::default()`. -/
def SqlBuilder.default : SqlBuilder := ⟨[]⟩

/-- Mirrors `Builder::add_migrations(db_url, migrations)`. -/
def SqlBuilder.add_migrations (b : SqlBuilder) (db : String)
    (ms : List Migration) : SqlBuilder :=
  ⟨b.migration_dbs ++ [(db, ms)]⟩

/-- The configuration accumulated by `tauri::Builder` at the moment `.run`
is invoked: the plugins registered (by name, in registration order) and the
SQL plugin's migration registrations. -/
structure AppConfig where
  plugins : List String
  sql_migrations : List (String × List Migration)
deriving Repr

/-- Mirrors `tauri::Builder::default()`. -/
def AppConfig.default : AppConfig := ⟨[], []⟩

/-- Mirrors `.plugin(tauri_plugin_opener::init())` and similar non-SQL
plugin registrations. -/
def AppConfig.plugin (c : AppConfig) (name : String) : AppConfig :=
  ⟨c.plugins ++ [name], c.sql_migrations⟩

/-- Mirrors `.plugin(tauri_plugin_sql::Builder...build())`: registers the
SQL plugin together with the migrations accumulated in its builder. -/
def AppConfig.pluginSql (c : AppConfig) (b : SqlBuilder) : AppConfig :=
  ⟨c.plugins ++ ["tauri_plugin_sql"], c.sql_migrations ++ b.migration_dbs⟩

/-- The builder chain of `run()` up to (but not including) the `.run` call,
exactly as written in `lib.rs`. -/
def run_config (sqlText : String) : AppConfig :=
  (AppConfig.default.plugin "tauri_plugin_opener").pluginSql
    (SqlBuilder.default.add_migrations "sqlite:game.db" (migrations sqlText))

/-- Outcome of `run()`: Rust's `run` returns `()` on success and panics via
`.expect(...)` otherwise; it has no error-returning path. -/
inductive RunOutcome where
  | ok
  | panicked (msg : String)
deriving DecidableEq, Repr

/-- Mirrors `run()`: builds the configuration, then calls
`.run(tauri::generate_context!()).expect("error while running tauri application")`.
`tauriRunOk` abstracts whether the framework's `run` call itself succeeds. -/
def run (sqlText : String) (tauriRunOk : Bool) : AppConfig × RunOutcome :=
  let cfg := run_config sqlText
  (cfg, if tauriRunOk then RunOutcome.ok
        else RunOutcome.panicked "error while running tauri application")

/-! ## Section 2: the Event Log

Modelled from the spec: the repository contains no event-store code, only
the bootstrap that creates its tables; the Event Log below follows §3, §4.2
and §7 of the specification. -/

/-- Modelled from the spec: a domain event (§3).  `recorded_at` is a `Nat`
timestamp; `payload` is a byte list. -/
structure Event where
  stream_id : String
  sequence : Nat
  event_type : String
  payload : List Nat
  recorded_at : Nat
deriving DecidableEq, Repr

/-- Modelled from the spec (§7): the error taxonomy of the store. -/
inductive StoreError where
  | MigrationError
  | ConcurrencyConflict
  | NotFound
  | ReplayError
deriving DecidableEq, Repr

/-- The events of one stream, in append (log) order. -/
def streamEvents (log : List Event) (sid : String) : List Event :=
  log.filter (fun e => e.stream_id = sid)

/-- The sequence numbers of one stream, in append (log) order. -/
def streamSeqs (log : List Event) (sid : String) : List Nat :=
  (streamEvents log sid).map (fun e => e.sequence)

/-- Whether the stream has ever received an event. -/
def stream_exists (log : List Event) (sid : String) : Bool :=
  log.any (fun e => e.stream_id = sid)

/-- Modelled from the spec (§4.2): `latest_sequence(stream_id) -> Option<u64>`,
absent if the stream has no events. -/
def latest_sequence (log : List Event) (sid : String) : Option Nat :=
  match streamSeqs log sid with
  | [] => none
  | s :: rest => some (rest.foldl max s)

/-- The current maximum sequence of a stream, `0` when the stream is empty
(the spec's "0/absent" reading of `latest_sequence`). -/
def maxSeq (log : List Event) (sid : String) : Nat :=
  (streamSeqs log sid).foldr max 0

/-- Modelled from the spec (§4.2): `append(stream_id, expected_sequence,
event_type, payload)` with optimistic concurrency.  If the current max
sequence for the stream is not `expected_sequence - 1` the call fails with
`ConcurrencyConflict` and performs no write; otherwise the event is
committed at `expected_sequence` and that sequence is returned. -/
def append (log : List Event) (sid : String) (expected : Nat)
    (ty : String) (payload : List Nat) (now : Nat) :
    Except StoreError (List Event × Nat) :=
  if maxSeq log sid + 1 = expected then
    Except.ok (log ++ [⟨sid, expected, ty, payload, now⟩], expected)
  else
    Except.error StoreError.ConcurrencyConflict

/-- Modelled from the spec (§4.2): `read_range(stream_id, from_sequence,
to_sequence_inclusive)`; fails with `NotFound` only if the stream has never
existed, otherwise returns the stream's events with sequence in the range,
in log order. -/
def read_range (log : List Event) (sid : String) (lo hi : Nat) :
    Except StoreError (List Event) :=
  if stream_exists log sid then
    Except.ok ((streamEvents log sid).filter
      (fun e => decide (lo ≤ e.sequence) && decide (e.sequence ≤ hi)))
  else
    Except.error StoreError.NotFound

/-- Reachable event logs (§8): any sequence of operations starting from the
empty log.  Only a successful `append` changes the log; failed operations
and reads leave it unchanged, so reachability is closure of the empty log
under successful appends. -/
inductive ReachableLog : List Event → Prop where
  | empty : ReachableLog []
  | append (log : List Event) (sid : String) (expected : Nat) (ty : String)
      (payload : List Nat) (now : Nat) (log' : List Event) (seq : Nat) :
      ReachableLog log →
      append log sid expected ty payload now = Except.ok (log', seq) →
      ReachableLog log'

/-- Stateful view of `append` (§4.2): on success the committed log replaces
the old one; on `ConcurrencyConflict` the log is returned unchanged — the
call performs no write. -/
def append_op (log : List Event) (sid : String) (expected : Nat)
    (ty : String) (payload : List Nat) (now : Nat) :
    List Event × Except StoreError Nat :=
  match append log sid expected ty payload now with
  | Except.ok (log', seq) => (log', Except.ok seq)
  | Except.error e => (log, Except.error e)

/-- The per-stream log invariant (§3): within every stream the sequence
numbers, read in log order, are exactly `1, 2, ..., n`. -/
def LogInv (log : List Event) : Prop :=
  ∀ sid, streamSeqs log sid = List.range' 1 (streamSeqs log sid).length

/-- A one-event log used to instantiate universally quantified theorems. -/
def ev1 : Event := ⟨"s1", 1, "t", [], 0⟩

/-- The log holding exactly `ev1`. -/
def log1 : List Event := [ev1]

/-! ## Section 3: the Schema Migrator

Modelled from the spec (§4.1, §6): the migration runner itself is part of
the host framework (`tauri_plugin_sql`), not of the given source. -/

/-- Modelled from the spec (§6): one migration-list entry carrying a
version, a description and the schema text. -/
structure MigEntry where
  version : Nat
  description : String
  schema : String
deriving DecidableEq, Repr

/-- A database as the Migrator sees it: the highest recorded schema version
(0 when none is recorded) plus abstract content of type `δ`. -/
structure MigDB (δ : Type) where
  version : Nat
  content : δ
deriving DecidableEq, Repr

/-- Modelled from the spec (§4.1): the Migrator walks the ordered list,
skips entries whose version does not exceed the recorded version, and runs
each remaining entry inside its own atomic transaction.  `step` is the
storage engine executing one entry's schema text; `none` is a failed
transaction, rolled back, so the database is unchanged by a failed step.
The recorded version advances exactly when a transaction commits; on
failure the Migrator stops immediately with `MigrationError`. -/
def migrate {δ : Type} (step : String → δ → Option δ) :
    List MigEntry → MigDB δ → MigDB δ × Option StoreError
  | [], db => (db, none)
  | e :: rest, db =>
    if e.version ≤ db.version then migrate step rest db
    else
      match step e.schema db.content with
      | some c => migrate step rest ⟨e.version, c⟩
      | none => (db, some StoreError.MigrationError)

/-- Reference runner: applies the given entries unconditionally in order,
stopping at the first failed transaction; used to state which entries
`migrate` actually applies. -/
def runEntries {δ : Type} (step : String → δ → Option δ) :
    List MigEntry → MigDB δ → MigDB δ × Option StoreError
  | [], db => (db, none)
  | e :: rest, db =>
    match step e.schema db.content with
    | some c => runEntries step rest ⟨e.version, c⟩
    | none => (db, some StoreError.MigrationError)

/-- Applies entries in order, returning `none` as soon as any transaction
fails; the all-success reference fold. -/
def applyList {δ : Type} (step : String → δ → Option δ) :
    List MigEntry → MigDB δ → Option (MigDB δ)
  | [], db => some db
  | e :: rest, db =>
    match step e.schema db.content with
    | some c => applyList step rest ⟨e.version, c⟩
    | none => none

/-- A concrete two-entry migration list used to instantiate theorems. -/
def mig2 : List MigEntry := [⟨1, "one", "a"⟩, ⟨2, "two", "b"⟩]

/-- A concrete storage engine over `List String` content: records each
applied schema text, failing on the text `"FAIL"`. -/
def step2 (s : String) (c : List String) : Option (List String) :=
  if s = "FAIL" then none else some (c ++ [s])

/-! ## Section 4: the Snapshot Store and the Replay Engine

Modelled from the spec (§3, §4.3, §4.4, §4.5).  The snapshot `state_blob`
is kept at the caller's state type `σ`; serialization is modelled as the
identity, which is faithful because the spec treats the blob as an opaque
round-tripping encoding of the folded state. -/

/-- Modelled from the spec (§3): a snapshot of folded state as of
`sequence`. -/
structure Snapshot (σ : Type) where
  stream_id : String
  sequence : Nat
  state_blob : σ
  schema_version : Nat
deriving DecidableEq, Repr

/-- Modelled from the spec (§4.3): `save` stores a snapshot, but is a no-op
if a snapshot already exists for the stream at a sequence ≥ the given one
(snapshots never move backward); newer snapshots supersede rather than
overwrite older ones. -/
def save {σ : Type} (ss : List (Snapshot σ)) (sid : String) (seq : Nat)
    (blob : σ) (sv : Nat) : List (Snapshot σ) :=
  if ss.any (fun s => decide (s.stream_id = sid) && decide (seq ≤ s.sequence))
  then ss
  else ss ++ [⟨sid, seq, blob, sv⟩]

/-- The highest snapshot sequence recorded for a stream, `0` when none. -/
def snapLatestSeq {σ : Type} (ss : List (Snapshot σ)) (sid : String) : Nat :=
  ((ss.filter (fun s => decide (s.stream_id = sid))).map
    (fun s => s.sequence)).foldr max 0

/-- A `save` call packaged as data, for stating properties of arbitrary
sequences of saves. -/
structure SaveReq (σ : Type) where
  stream_id : String
  sequence : Nat
  state_blob : σ
  schema_version : Nat
deriving DecidableEq, Repr

/-- Executes one packaged `save` call. -/
def doSave {σ : Type} (ss : List (Snapshot σ)) (r : SaveReq σ) :
    List (Snapshot σ) :=
  save ss r.stream_id r.sequence r.state_blob r.schema_version

/-- Modelled from the spec (§4.4): the snapshot for the stream with the
highest sequence not exceeding the replay target, if any. -/
def latestLE {σ : Type} (sid : String) (target : Nat) :
    List (Snapshot σ) → Option (Snapshot σ)
  | [] => none
  | s :: rest =>
    match latestLE sid target rest with
    | none => if s.stream_id = sid ∧ s.sequence ≤ target then some s else none
    | some t =>
      if (s.stream_id = sid ∧ s.sequence ≤ target) ∧ t.sequence < s.sequence
      then some s
      else some t

/-- The initial fold state and starting sequence chosen by the Replay
Engine (§4.4): from the selected snapshot when one exists, else the
caller-supplied initial state and sequence 1. -/
def rebuildStart {σ : Type} (snaps : List (Snapshot σ)) (sid : String)
    (target : Nat) (init : σ) : σ × Nat :=
  match latestLE sid target snaps with
  | some s => (s.state_blob, s.sequence + 1)
  | none => (init, 1)

/-- Folds events through the caller's reducer in order; a reducer error
aborts the fold with `ReplayError`, discarding the partial state (§4.4). -/
def foldEvents {σ : Type} (red : σ → Event → Except String σ) :
    σ → List Event → Except StoreError σ
  | st, [] => Except.ok st
  | st, e :: rest =>
    match red st e with
    | Except.ok st' => foldEvents red st' rest
    | Except.error _ => Except.error StoreError.ReplayError

/-- Modelled from the spec (§4.4): `rebuild` reads the event range from the
chosen starting point and folds it through the reducer. -/
def rebuild {σ : Type} (log : List Event) (snaps : List (Snapshot σ))
    (sid : String) (init : σ) (red : σ → Event → Except String σ)
    (target : Nat) : Except StoreError σ :=
  match read_range log sid (rebuildStart snaps sid target init).2 target with
  | Except.ok evs => foldEvents red (rebuildStart snaps sid target init).1 evs
  | Except.error e => Except.error e

/-- Modelled from the spec (§4.5): `snapshot_now` computes `rebuild` at the
stream's current head and saves the result; a failed rebuild saves
nothing. -/
def snapshot_now {σ : Type} (log : List Event) (snaps : List (Snapshot σ))
    (sid : String) (init : σ) (red : σ → Event → Except String σ)
    (sv : Nat) : List (Snapshot σ) :=
  match rebuild log snaps sid init red (maxSeq log sid) with
  | Except.ok st => save snaps sid (maxSeq log sid) st sv
  | Except.error _ => snaps

/-- The stream's events with sequence at most `k`, exactly as a
`read_range` from sequence 1 returns them. -/
def eventsUpTo (log : List Event) (sid : String) (k : Nat) : List Event :=
  (streamEvents log sid).filter
    (fun e => decide (1 ≤ e.sequence) && decide (e.sequence ≤ k))

/-- A snapshot that is a true checkpoint of its stream: the stream exists,
the snapshot does not run ahead of it, and its blob is the reducer's fold
of the stream's prefix up to its sequence. -/
def SnapshotValid {σ : Type} (init : σ) (red : σ → Event → Except String σ)
    (log : List Event) (s : Snapshot σ) : Prop :=
  stream_exists log s.stream_id = true ∧
  s.sequence ≤ maxSeq log s.stream_id ∧
  foldEvents red init (eventsUpTo log s.stream_id s.sequence) =
    Except.ok s.state_blob

/-- The combined store the Facade operates on (§4.5). -/
structure Store (σ : Type) where
  log : List Event
  snaps : List (Snapshot σ)

/-- Reachable facade states for a fixed reducer and initial state: closure
of the empty store under successful appends and `snapshot_now` calls
(failed operations leave the store unchanged). -/
inductive ReachableStore {σ : Type} (init : σ)
    (red : σ → Event → Except String σ) : Store σ → Prop where
  | empty : ReachableStore init red ⟨[], []⟩
  | stepAppend (log : List Event) (snaps : List (Snapshot σ)) (sid : String)
      (expected : Nat) (ty : String) (payload : List Nat) (now : Nat)
      (log' : List Event) (seq : Nat) :
      ReachableStore init red ⟨log, snaps⟩ →
      append log sid expected ty payload now = Except.ok (log', seq) →
      ReachableStore init red ⟨log', snaps⟩
  | stepSnapshot (log : List Event) (snaps : List (Snapshot σ)) (sid : String)
      (sv : Nat) :
      ReachableStore init red ⟨log, snaps⟩ →
      ReachableStore init red ⟨log, snapshot_now log snaps sid init red sv⟩

/-- A reducer over `Nat` state summing sequence numbers, used to
instantiate replay theorems. -/
def red0 (st : Nat) (e : Event) : Except String Nat :=
  Except.ok (st + e.sequence)

/-- A reducer that rejects the event at sequence 1, used to instantiate the
replay-failure theorem. -/
def redFail (st : Nat) (e : Event) : Except String Nat :=
  if e.sequence = 1 then Except.error "bad" else Except.ok st

/-- The snapshot store obtained by taking a snapshot of `log1`'s stream. -/
def snaps2 : List (Snapshot Nat) :=
  snapshot_now log1 [] "s1" 0 red0 7

/-- A concrete snapshot store used to instantiate the `save` theorem. -/
def snapsA : List (Snapshot Nat) := [⟨"s1", 5, 0, 1⟩]

/-! ### Event-log lemmas -/

theorem streamEvents_append (log : List Event) (e : Event) (sid : String) :
    streamEvents (log ++ [e]) sid =
      streamEvents log sid ++ if e.stream_id = sid then [e] else [] := by
  simp only [streamEvents, List.filter_append]
  congr 1
  by_cases h : e.stream_id = sid <;> simp [h]

theorem streamSeqs_append (log : List Event) (e : Event) (sid : String) :
    streamSeqs (log ++ [e]) sid =
      streamSeqs log sid ++ if e.stream_id = sid then [e.sequence] else [] := by
  simp only [streamSeqs, streamEvents_append, List.map_append]
  by_cases h : e.stream_id = sid <;> simp [h]

theorem foldr_max_range' (s n : Nat) :
    (List.range' s n).foldr max 0 = if n = 0 then 0 else s + n - 1 := by
  induction n generalizing s with
  | zero => rfl
  | succ n ih =>
    rw [List.range'_succ, List.foldr_cons, ih (s + 1)]
    by_cases h : n = 0 <;> simp [h]

theorem range'_one_concat (n : Nat) :
    List.range' 1 (1 + n) = List.range' 1 n ++ [1 + n] := by
  rw [Nat.add_comm 1 n, List.range'_concat]
  simp [Nat.add_comm]

theorem maxSeq_of_inv (log : List Event) (sid : String) (h : LogInv log) :
    maxSeq log sid = (streamSeqs log sid).length := by
  have hs := h sid
  rw [maxSeq, hs, foldr_max_range']
  by_cases hn : (streamSeqs log sid).length = 0 <;> simp [hn]

theorem reachable_loginv (log : List Event) (h : ReachableLog log) : LogInv log := by
  induction h with
  | empty => intro sid; rfl
  | append log sid expected ty payload now log' seq _ hok ih =>
    intro s
    rw [append] at hok
    split at hok
    case isFalse => exact absurd hok (by simp)
    case isTrue hmax =>
      have hlog' : log' = log ++ [⟨sid, expected, ty, payload, now⟩] := by
        have := hok
        simp only [Except.ok.injEq, Prod.mk.injEq] at this
        exact this.1.symm
      subst hlog'
      rw [streamSeqs_append]
      by_cases hsid : sid = s
      · subst hsid
        simp only [if_pos rfl]
        have hmax' : maxSeq log sid = (streamSeqs log sid).length :=
          maxSeq_of_inv log sid ih
        have hexp : expected = (streamSeqs log sid).length + 1 := by omega
        rw [ih sid, hexp]
        simp [range'_one_concat, Nat.add_comm]
      · simp only [if_neg (by simpa using hsid)]
        simpa using ih s

theorem map_seq_filter (l : List Event) (p : Nat → Bool) :
    (l.filter (fun e => p e.sequence)).map (fun e => e.sequence) =
      (l.map (fun e => e.sequence)).filter p := by
  induction l with
  | nil => rfl
  | cons e rest ih =>
    by_cases h : p e.sequence <;> simp [List.filter_cons, h, ih]

theorem filter_range'_interval (a b : Nat) :
    ∀ (n s : Nat),
      (List.range' s n).filter (fun x => decide (a ≤ x) && decide (x ≤ b)) =
        List.range' (max s a) (min (s + n) (b + 1) - max s a) := by
  intro n
  induction n with
  | zero =>
    intro s
    have : min (s + 0) (b + 1) - max s a = 0 := by omega
    simp [this]
  | succ n ih =>
    intro s
    rw [List.range'_succ, List.filter_cons, ih (s + 1)]
    by_cases ha : a ≤ s
    · by_cases hb : s ≤ b
      · have h1 : max s a = s := by omega
        have h2 : max (s + 1) a = s + 1 := by omega
        have h3 : min (s + (n + 1)) (b + 1) - max s a =
            (min (s + 1 + n) (b + 1) - max (s + 1) a) + 1 := by omega
        rw [h3, h1, h2, List.range'_succ]
        simp [ha, hb]
      · have h3 : min (s + 1 + n) (b + 1) - max (s + 1) a = 0 := by omega
        have h4 : min (s + (n + 1)) (b + 1) - max s a = 0 := by omega
        rw [h3, h4]
        simp [hb]
    · have h2 : max (s + 1) a = max s a := by omega
      have h3 : min (s + 1 + n) (b + 1) = min (s + (n + 1)) (b + 1) := by omega
      rw [h2, h3]
      simp [ha]

theorem reachable_log1 : ReachableLog log1 :=
  ReachableLog.append [] "s1" 1 "t" [] 0 log1 1 ReachableLog.empty rfl

/-! ### Claim theorems about the Event Log -/

/-- C2: an `append` whose `expected_sequence` is not one past the stream's
current maximum fails with `ConcurrencyConflict` and leaves the log
unchanged; on an empty stream an append with `expected_sequence = 1`
succeeds returning sequence 1, and immediately repeating it with
`expected_sequence = 1` fails with `ConcurrencyConflict`. -/
theorem append_conflict_no_write (log : List Event) (sid : String)
    (exp : Nat) (ty : String) (pl : List Nat) (now : Nat)
    (h : maxSeq log sid + 1 ≠ exp) :
    append_op log sid exp ty pl now =
      (log, Except.error StoreError.ConcurrencyConflict) ∧
    append [] "s1" 1 "t" [] 0 = Except.ok ([ev1], 1) ∧
    append [ev1] "s1" 1 "t" [] 1 =
      Except.error StoreError.ConcurrencyConflict := by
  refine ⟨?_, by rfl, by rfl⟩
  have hap : append log sid exp ty pl now =
      Except.error StoreError.ConcurrencyConflict := by
    rw [append, if_neg h]
  unfold append_op
  rw [hap]

/-- Closed instance of `append_conflict_no_write` at a concrete log. -/
theorem append_conflict_no_write_witness :
    append_op log1 "s1" 3 "t" [] 1 =
      (log1, Except.error StoreError.ConcurrencyConflict) :=
  (append_conflict_no_write log1 "s1" 3 "t" [] 1 (by decide)).1

/-- C3: in every reachable event log, each stream's sequence numbers (in
log order) are exactly `1, 2, ..., n` — contiguous from 1, no gaps — and
contain no duplicates: no two events of one stream share a sequence. -/
theorem reachable_log_sequences_contiguous (log : List Event)
    (h : ReachableLog log) (sid : String) :
    streamSeqs log sid = List.range' 1 (streamSeqs log sid).length ∧
    (streamSeqs log sid).Nodup := by
  have hi := reachable_loginv log h
  refine ⟨hi sid, ?_⟩
  rw [hi sid]
  exact List.nodup_range' 1 _

/-- Closed instance of `reachable_log_sequences_contiguous` at a concrete
reachable log. -/
theorem reachable_log_sequences_contiguous_witness :
    streamSeqs log1 "s1" = List.range' 1 (streamSeqs log1 "s1").length ∧
    (streamSeqs log1 "s1").Nodup :=
  reachable_log_sequences_contiguous log1 reachable_log1 "s1"

/-- C7: on a reachable log, `read_range` fails with `NotFound` exactly when
the stream has never existed; a successful result lists the stream's events
in strictly increasing gapless sequence order (an interval of `range'`) as
a sublist of the stream in append order; and an existing stream with an
empty requested range yields `ok []`, not an error. -/
theorem read_range_ordered (log : List Event) (sid : String) (lo hi : Nat)
    (h : ReachableLog log) :
    (read_range log sid lo hi = Except.error StoreError.NotFound ↔
      stream_exists log sid = false) ∧
    (∀ l, read_range log sid lo hi = Except.ok l →
      l.map (fun e => e.sequence) =
        List.range' (max 1 lo)
          (min (1 + (streamSeqs log sid).length) (hi + 1) - max 1 lo) ∧
      List.Sublist l (streamEvents log sid)) ∧
    (stream_exists log sid = true → hi < lo →
      read_range log sid lo hi = Except.ok []) := by
  have hinv := reachable_loginv log h
  by_cases hex : stream_exists log sid
  · have hrr : read_range log sid lo hi = Except.ok
        ((streamEvents log sid).filter
          (fun e => decide (lo ≤ e.sequence) && decide (e.sequence ≤ hi))) := by
      rw [read_range, if_pos hex]
    refine ⟨?_, ?_, ?_⟩
    · rw [hrr]
      simp [hex]
    · intro l hl
      rw [hrr] at hl
      have hl' : l = (streamEvents log sid).filter
          (fun e => decide (lo ≤ e.sequence) && decide (e.sequence ≤ hi)) := by
        simpa using hl.symm
      subst hl'
      constructor
      · rw [map_seq_filter (streamEvents log sid)
          (fun x => decide (lo ≤ x) && decide (x ≤ hi))]
        have hseqs : (streamEvents log sid).map (fun e => e.sequence) =
            List.range' 1 (streamSeqs log sid).length := hinv sid
        rw [hseqs, filter_range'_interval lo hi (streamSeqs log sid).length 1]
      · exact List.filter_sublist _
    · intro _ hlt
      rw [hrr]
      have : (streamEvents log sid).filter
          (fun e => decide (lo ≤ e.sequence) && decide (e.sequence ≤ hi)) = [] := by
        rw [List.filter_eq_nil_iff]
        intro e _
        simp only [Bool.and_eq_true, decide_eq_true_eq, not_and]
        omega
      rw [this]
  · have hrr : read_range log sid lo hi = Except.error StoreError.NotFound := by
      rw [read_range, if_neg hex]
    refine ⟨?_, ?_, ?_⟩
    · rw [hrr]
      simpa using hex
    · intro l hl
      rw [hrr] at hl
      exact absurd hl (by simp)
    · intro hx
      exact absurd hx (by simpa using hex)

/-- Closed instance of `read_range_ordered`: an existing stream with an
empty range returns an empty result rather than an error. -/
theorem read_range_ordered_witness :
    read_range log1 "s1" 2 1 = Except.ok [] :=
  (read_range_ordered log1 "s1" 2 1 reachable_log1).2.2 (by decide) (by decide)

/-! ### Migrator lemmas -/

theorem runEntries_decomp {δ : Type} (step : String → δ → Option δ) :
    ∀ (L : List MigEntry) (db : MigDB δ),
      ∃ pre suf db', L = pre ++ suf ∧ applyList step pre db = some db' ∧
        ((suf = [] ∧ runEntries step L db = (db', none)) ∨
         (∃ e rest, suf = e :: rest ∧ step e.schema db'.content = none ∧
           runEntries step L db = (db', some StoreError.MigrationError))) := by
  intro L
  induction L with
  | nil =>
    intro db
    exact ⟨[], [], db, rfl, rfl, Or.inl ⟨rfl, rfl⟩⟩
  | cons e rest ih =>
    intro db
    cases hstep : step e.schema db.content with
    | none =>
      refine ⟨[], e :: rest, db, rfl, rfl, Or.inr ⟨e, rest, rfl, hstep, ?_⟩⟩
      simp [runEntries, hstep]
    | some c =>
      obtain ⟨pre, suf, db', hdec, happ, hres⟩ := ih ⟨e.version, c⟩
      refine ⟨e :: pre, suf, db', by simp [hdec], ?_, ?_⟩
      · simp [applyList, hstep, happ]
      · have hrun : runEntries step (e :: rest) db =
            runEntries step rest ⟨e.version, c⟩ := by
          simp [runEntries, hstep]
        rw [hrun]
        exact hres

theorem migrate_skip_iff {δ : Type} (step : String → δ → Option δ)
    (L : List MigEntry) :
    ∀ db : MigDB δ, L.Pairwise (fun a b => a.version < b.version) →
      migrate step L db =
        runEntries step (L.filter fun e => decide (db.version < e.version)) db := by
  induction L with
  | nil => intro db _; rfl
  | cons e rest ih =>
    intro db hs
    have hs' : rest.Pairwise (fun a b => a.version < b.version) :=
      (List.pairwise_cons.mp hs).2
    have hmem : ∀ x ∈ rest, e.version < x.version :=
      (List.pairwise_cons.mp hs).1
    by_cases hv : e.version ≤ db.version
    · have hd : decide (db.version < e.version) = false := by
        simp; omega
      rw [List.filter_cons_of_neg (by simp [hd])]
      have hm : migrate step (e :: rest) db = migrate step rest db := by
        rw [migrate, if_pos hv]
      rw [hm]
      exact ih db hs'
    · have hd : decide (db.version < e.version) = true := by
        simp; omega
      rw [List.filter_cons_of_pos (by simp [hd])]
      cases hstep : step e.schema db.content with
      | none =>
        have hm : migrate step (e :: rest) db = (db, some StoreError.MigrationError) := by
          rw [migrate, if_neg hv, hstep]
        have hr : runEntries step
            (e :: rest.filter fun x => decide (db.version < x.version)) db =
            (db, some StoreError.MigrationError) := by
          rw [runEntries, hstep]
        rw [hm, hr]
      | some c =>
        have hm : migrate step (e :: rest) db =
            migrate step rest ⟨e.version, c⟩ := by
          rw [migrate, if_neg hv, hstep]
        have hr : runEntries step
            (e :: rest.filter fun x => decide (db.version < x.version)) db =
            runEntries step (rest.filter fun x => decide (db.version < x.version))
              ⟨e.version, c⟩ := by
          rw [runEntries, hstep]
        have hfil : rest.filter (fun x => decide (db.version < x.version)) =
            rest.filter (fun x => decide ((⟨e.version, c⟩ : MigDB δ).version < x.version)) := by
          rw [List.filter_eq_self.mpr, List.filter_eq_self.mpr]
          · intro x hx
            simpa using hmem x hx
          · intro x hx
            have := hmem x hx
            simp
            omega
        rw [hm, hr, hfil]
        exact ih ⟨e.version, c⟩ hs'

theorem migrate_versions_le {δ : Type} (step : String → δ → Option δ) :
    ∀ (L : List MigEntry) (db db' : MigDB δ),
      migrate step L db = (db', none) →
      db.version ≤ db'.version ∧ ∀ e ∈ L, e.version ≤ db'.version := by
  intro L
  induction L with
  | nil =>
    intro db db' h
    have hdb : db = db' := by
      simpa [migrate] using congrArg Prod.fst h
    subst hdb
    exact ⟨Nat.le_refl _, by simp⟩
  | cons e rest ih =>
    intro db db' h
    by_cases hv : e.version ≤ db.version
    · rw [migrate, if_pos hv] at h
      obtain ⟨h1, h2⟩ := ih db db' h
      exact ⟨h1, by
        intro x hx
        rcases List.mem_cons.mp hx with hx | hx
        · subst hx; omega
        · exact h2 x hx⟩
    · rw [migrate, if_neg hv] at h
      cases hstep : step e.schema db.content with
      | none =>
        rw [hstep] at h
        exact absurd (congrArg Prod.snd h) (by simp)
      | some c =>
        rw [hstep] at h
        obtain ⟨h1, h2⟩ := ih ⟨e.version, c⟩ db' h
        refine ⟨by simp at h1; omega, ?_⟩
        intro x hx
        rcases List.mem_cons.mp hx with hx | hx
        · subst hx; simpa using h1
        · exact h2 x hx

theorem migrate_noop {δ : Type} (step : String → δ → Option δ) :
    ∀ (L : List MigEntry) (db : MigDB δ),
      (∀ e ∈ L, e.version ≤ db.version) → migrate step L db = (db, none) := by
  intro L
  induction L with
  | nil => intro db _; rfl
  | cons e rest ih =>
    intro db hle
    rw [migrate, if_pos (hle e (by simp))]
    exact ih db fun x hx => hle x (by simp [hx])

/-! ### Claim theorems about the Migrator -/

/-- C4: on a version-sorted migration list the Migrator applies exactly the
entries whose version exceeds the recorded version, in order; the run
decomposes into a successfully committed sequence of transactions (each
recording its version as it commits) followed, if any transaction fails,
by an immediate stop with `MigrationError` that leaves the database at the
last committed point. -/
theorem migrate_transactional {δ : Type} (step : String → δ → Option δ)
    (L : List MigEntry) (db : MigDB δ)
    (hs : L.Pairwise fun a b => a.version < b.version) :
    migrate step L db =
      runEntries step (L.filter fun e => decide (db.version < e.version)) db ∧
    ∃ pre suf db',
      L.filter (fun e => decide (db.version < e.version)) = pre ++ suf ∧
      applyList step pre db = some db' ∧
      ((suf = [] ∧ migrate step L db = (db', none)) ∨
       (∃ e rest, suf = e :: rest ∧ step e.schema db'.content = none ∧
         migrate step L db = (db', some StoreError.MigrationError))) := by
  have heq := migrate_skip_iff step L db hs
  refine ⟨heq, ?_⟩
  obtain ⟨pre, suf, db', hdec, happ, hres⟩ :=
    runEntries_decomp step (L.filter fun e => decide (db.version < e.version)) db
  refine ⟨pre, suf, db', hdec, happ, ?_⟩
  rcases hres with ⟨h1, h2⟩ | ⟨e, rest, h1, h2, h3⟩
  · exact Or.inl ⟨h1, by rw [heq]; exact h2⟩
  · exact Or.inr ⟨e, rest, h1, h2, by rw [heq]; exact h3⟩

/-- Closed instance of `migrate_transactional` on a concrete sorted list. -/
theorem migrate_transactional_witness :
    migrate step2 mig2 ⟨0, []⟩ =
      runEntries step2 (mig2.filter fun e =>
        decide ((⟨0, []⟩ : MigDB (List String)).version < e.version)) ⟨0, []⟩ :=
  (migrate_transactional step2 mig2 ⟨0, []⟩ (by decide)).1

/-- C5: re-running the Migrator after a fully successful run, with the same
list or any of its list-prefixes, is a no-op: nothing is re-applied and the
recorded version is unchanged. -/
theorem migrate_idempotent {δ : Type} (step : String → δ → Option δ)
    (L L' : List MigEntry) (db db' : MigDB δ)
    (h : migrate step L db = (db', none)) (hp : L' <+: L) :
    migrate step L' db' = (db', none) := by
  have hv := (migrate_versions_le step L db db' h).2
  exact migrate_noop step L' db' fun e he => hv e (hp.subset he)

/-- Closed instance of `migrate_idempotent`: the concrete list re-run on
the database it produced is a no-op. -/
theorem migrate_idempotent_witness :
    migrate step2 mig2 ⟨2, ["a", "b"]⟩ = (⟨2, ["a", "b"]⟩, none) :=
  migrate_idempotent step2 mig2 mig2 ⟨0, []⟩ ⟨2, ["a", "b"]⟩ (by rfl)
    ⟨[], List.append_nil _⟩

/-! ### Snapshot and replay lemmas -/

theorem foldr_max_init (l : List Nat) : ∀ b, l.foldr max b = max b (l.foldr max 0) := by
  induction l with
  | nil => intro b; simp
  | cons x rest ih =>
    intro b
    simp only [List.foldr_cons]
    rw [ih b, ih 0]
    omega

theorem foldr_max_zero_le (l : List Nat) (b : Nat) :
    l.foldr max 0 ≤ l.foldr max b := by
  rw [foldr_max_init l b]
  omega

theorem foldEvents_append {σ : Type} (red : σ → Event → Except String σ)
    (l1 l2 : List Event) (st : σ) :
    foldEvents red st (l1 ++ l2) =
      match foldEvents red st l1 with
      | Except.ok st' => foldEvents red st' l2
      | Except.error e => Except.error e := by
  induction l1 generalizing st with
  | nil => rfl
  | cons e rest ih =>
    rw [List.cons_append]
    cases hr : red st e with
    | ok st' => simp [foldEvents, hr, ih]
    | error m => simp [foldEvents, hr]

theorem latestLE_mem {σ : Type} (sid : String) (target : Nat)
    (ss : List (Snapshot σ)) :
    ∀ s, latestLE sid target ss = some s →
      s ∈ ss ∧ s.stream_id = sid ∧ s.sequence ≤ target := by
  induction ss with
  | nil =>
    intro s h
    exact absurd h (by simp [latestLE])
  | cons t rest ih =>
    intro s h
    rw [latestLE] at h
    cases hrec : latestLE sid target rest with
    | none =>
      rw [hrec] at h
      simp only [] at h
      split at h
      case isTrue hc =>
        have ht : t = s := Option.some.inj h
        subst ht
        exact ⟨by simp, hc.1, hc.2⟩
      case isFalse => exact absurd h (by simp)
    | some u =>
      rw [hrec] at h
      simp only [] at h
      split at h
      case isTrue hc =>
        have ht : t = s := Option.some.inj h
        subst ht
        exact ⟨by simp, hc.1.1, hc.1.2⟩
      case isFalse =>
        have hu : u = s := Option.some.inj h
        subst hu
        obtain ⟨hm, h1, h2⟩ := ih u hrec
        exact ⟨by simp [hm], h1, h2⟩

theorem filter_seq_split (lo b c : Nat) (hlo : lo ≤ b + 1) (hbc : b ≤ c) :
    ∀ (l : List Event) (s : Nat),
      l.map (fun e => e.sequence) = List.range' s l.length →
      l.filter (fun e => decide (lo ≤ e.sequence) && decide (e.sequence ≤ c)) =
        l.filter (fun e => decide (lo ≤ e.sequence) && decide (e.sequence ≤ b)) ++
        l.filter (fun e => decide (b + 1 ≤ e.sequence) && decide (e.sequence ≤ c)) := by
  intro l
  induction l with
  | nil => intro s _; rfl
  | cons e rest ih =>
    intro s hmap
    simp only [List.map_cons, List.length_cons, List.range'_succ,
      List.cons.injEq] at hmap
    obtain ⟨hes, hrest⟩ := hmap
    have hmem : ∀ x ∈ rest, s + 1 ≤ x.sequence := by
      intro x hx
      have hxm : x.sequence ∈ rest.map (fun e => e.sequence) :=
        List.mem_map_of_mem _ hx
      rw [hrest] at hxm
      exact (List.mem_range'_1.mp hxm).1
    have ihr := ih (s + 1) hrest
    rw [List.filter_cons, List.filter_cons, List.filter_cons]
    simp only [Bool.and_eq_true, decide_eq_true_eq, hes]
    by_cases h1 : lo ≤ s
    · by_cases h2 : s ≤ b
      · rw [if_pos ⟨h1, by omega⟩, if_pos ⟨h1, h2⟩,
          if_neg (by omega : ¬(b + 1 ≤ s ∧ s ≤ c))]
        rw [List.cons_append, ihr]
      · by_cases h3 : s ≤ c
        · rw [if_pos ⟨h1, h3⟩, if_neg (by omega : ¬(lo ≤ s ∧ s ≤ b)),
            if_pos ⟨by omega, h3⟩]
          have hnil : rest.filter
              (fun e => decide (lo ≤ e.sequence) && decide (e.sequence ≤ b)) = [] := by
            rw [List.filter_eq_nil_iff]
            intro x hx
            have := hmem x hx
            simp only [Bool.and_eq_true, decide_eq_true_eq, not_and]
            omega
          rw [ihr, hnil]
          simp
        · rw [if_neg (by omega : ¬(lo ≤ s ∧ s ≤ c)),
            if_neg (by omega : ¬(lo ≤ s ∧ s ≤ b)),
            if_neg (by omega : ¬(b + 1 ≤ s ∧ s ≤ c))]
          exact ihr
    · rw [if_neg (by omega : ¬(lo ≤ s ∧ s ≤ c)),
        if_neg (by omega : ¬(lo ≤ s ∧ s ≤ b)),
        if_neg (by omega : ¬(b + 1 ≤ s ∧ s ≤ c))]
      exact ihr

theorem rebuild_char {σ : Type} (log : List Event) (snaps : List (Snapshot σ))
    (sid : String) (init : σ) (red : σ → Event → Except String σ) (target : Nat)
    (hlog : LogInv log)
    (hvalid : ∀ s ∈ snaps, SnapshotValid init red log s) :
    rebuild log snaps sid init red target =
      if stream_exists log sid then
        foldEvents red init (eventsUpTo log sid target)
      else Except.error StoreError.NotFound := by
  cases hsel : latestLE sid target snaps with
  | none =>
    have hrs1 : (rebuildStart snaps sid target init).1 = init := by
      rw [rebuildStart, hsel]
    have hrs2 : (rebuildStart snaps sid target init).2 = 1 := by
      rw [rebuildStart, hsel]
    by_cases hex : stream_exists log sid
    · have hrr : read_range log sid 1 target =
          Except.ok (eventsUpTo log sid target) := by
        rw [read_range, if_pos hex]; rfl
      unfold rebuild
      rw [hrs1, hrs2, hrr, if_pos hex]
    · have hrr : read_range log sid 1 target =
          Except.error StoreError.NotFound := by
        rw [read_range, if_neg hex]
      unfold rebuild
      rw [hrs2, hrr, if_neg hex]
  | some s =>
    obtain ⟨hmem, hsid, hle⟩ := latestLE_mem sid target snaps s hsel
    obtain ⟨hex0, hseq, hfold⟩ := hvalid s hmem
    rw [hsid] at hex0 hseq hfold
    have hrs1 : (rebuildStart snaps sid target init).1 = s.state_blob := by
      rw [rebuildStart, hsel]
    have hrs2 : (rebuildStart snaps sid target init).2 = s.sequence + 1 := by
      rw [rebuildStart, hsel]
    have hrr : read_range log sid (s.sequence + 1) target = Except.ok
        ((streamEvents log sid).filter
          (fun e => decide (s.sequence + 1 ≤ e.sequence) &&
            decide (e.sequence ≤ target))) := by
      rw [read_range, if_pos hex0]
    have hmap : (streamEvents log sid).map (fun e => e.sequence) =
        List.range' 1 (streamEvents log sid).length := by
      have := hlog sid
      rw [streamSeqs] at this
      rw [this, List.length_map]
    have hsplit : eventsUpTo log sid target =
        eventsUpTo log sid s.sequence ++
        (streamEvents log sid).filter
          (fun e => decide (s.sequence + 1 ≤ e.sequence) &&
            decide (e.sequence ≤ target)) := by
      rw [eventsUpTo, eventsUpTo]
      exact filter_seq_split 1 s.sequence target (by omega) hle
        (streamEvents log sid) 1 hmap
    rw [if_pos hex0]
    unfold rebuild
    rw [hrs1, hrs2, hrr, hsplit, foldEvents_append, hfold]

theorem stream_exists_append (log : List Event) (e : Event) (sid : String)
    (h : stream_exists log sid = true) :
    stream_exists (log ++ [e]) sid = true := by
  simp only [stream_exists, List.any_append, Bool.or_eq_true]
  exact Or.inl h

theorem maxSeq_append_ge (log : List Event) (e : Event) (sid : String) :
    maxSeq log sid ≤ maxSeq (log ++ [e]) sid := by
  rw [maxSeq, maxSeq, streamSeqs_append]
  by_cases h : e.stream_id = sid
  · rw [if_pos h, List.foldr_append]
    exact foldr_max_zero_le _ _
  · rw [if_neg h, List.append_nil]

theorem eventsUpTo_append (log : List Event) (e : Event) (sid : String) (k : Nat)
    (h : e.stream_id ≠ sid ∨ k < e.sequence) :
    eventsUpTo (log ++ [e]) sid k = eventsUpTo log sid k := by
  rw [eventsUpTo, eventsUpTo, streamEvents_append]
  by_cases hs : e.stream_id = sid
  · rcases h with hcontra | hk
    · exact absurd hs hcontra
    · rw [if_pos hs, List.filter_append]
      have hnil : [e].filter
          (fun x => decide (1 ≤ x.sequence) && decide (x.sequence ≤ k)) = [] := by
        simp only [List.filter_cons, List.filter_nil, Bool.and_eq_true,
          decide_eq_true_eq]
        rw [if_neg (by omega : ¬(1 ≤ e.sequence ∧ e.sequence ≤ k))]
      rw [hnil, List.append_nil]
  · rw [if_neg hs, List.append_nil]

theorem reachable_store_inv {σ : Type} (init : σ)
    (red : σ → Event → Except String σ) (st : Store σ)
    (h : ReachableStore init red st) :
    ReachableLog st.log ∧ ∀ s ∈ st.snaps, SnapshotValid init red st.log s := by
  induction h with
  | empty => exact ⟨ReachableLog.empty, by simp⟩
  | stepAppend log snaps sid expected ty payload now log' seq hr hok ih =>
    have hlog0 : ReachableLog log := ih.1
    have hsnap0 : ∀ s ∈ snaps, SnapshotValid init red log s := ih.2
    refine ⟨ReachableLog.append log sid expected ty payload now log' seq hlog0 hok, ?_⟩
    rw [append] at hok
    split at hok
    case isFalse => exact absurd hok (by simp)
    case isTrue hmax =>
      have hlog' : log' = log ++ [⟨sid, expected, ty, payload, now⟩] := by
        simp only [Except.ok.injEq, Prod.mk.injEq] at hok
        exact hok.1.symm
      subst hlog'
      show ∀ s ∈ snaps,
        SnapshotValid init red (log ++ [⟨sid, expected, ty, payload, now⟩]) s
      intro s hs
      obtain ⟨he, hle, hf⟩ := hsnap0 s hs
      refine ⟨stream_exists_append _ _ _ he,
        le_trans hle (maxSeq_append_ge _ _ _), ?_⟩
      rw [eventsUpTo_append]
      · exact hf
      · by_cases hst : sid = s.stream_id
        · right
          show s.sequence < expected
          rw [hst] at hmax
          omega
        · exact Or.inl hst
  | stepSnapshot log snaps sid sv hr ih =>
    have hlog0 : ReachableLog log := ih.1
    have hsnap0 : ∀ s ∈ snaps, SnapshotValid init red log s := ih.2
    refine ⟨hlog0, ?_⟩
    show ∀ s ∈ snapshot_now log snaps sid init red sv,
      SnapshotValid init red log s
    intro s hs
    cases hreb : rebuild log snaps sid init red (maxSeq log sid) with
    | error err =>
      have hsn : snapshot_now log snaps sid init red sv = snaps := by
        rw [snapshot_now, hreb]
      rw [hsn] at hs
      exact hsnap0 s hs
    | ok stv =>
      have hsn : snapshot_now log snaps sid init red sv =
          save snaps sid (maxSeq log sid) stv sv := by
        rw [snapshot_now, hreb]
      rw [hsn] at hs
      have hchar := rebuild_char log snaps sid init red (maxSeq log sid)
        (reachable_loginv log hlog0) hsnap0
      rw [hreb] at hchar
      by_cases hex : stream_exists log sid
      · rw [if_pos hex] at hchar
        rw [save] at hs
        split at hs
        · exact hsnap0 s hs
        · rcases List.mem_append.mp hs with hs | hs
          · exact hsnap0 s hs
          · have hse : s = ⟨sid, maxSeq log sid, stv, sv⟩ := by simpa using hs
            subst hse
            exact ⟨hex, Nat.le_refl _, hchar.symm⟩
      · rw [if_neg hex] at hchar
        exact absurd hchar (by simp)

theorem snapLatestSeq_doSave_le {σ : Type} (ss : List (Snapshot σ))
    (r : SaveReq σ) (sid : String) :
    snapLatestSeq ss sid ≤ snapLatestSeq (doSave ss r) sid := by
  rw [doSave, save]
  split
  · exact Nat.le_refl _
  · rw [snapLatestSeq, snapLatestSeq, List.filter_append, List.map_append,
      List.foldr_append]
    exact foldr_max_zero_le _ _

/-! ### Claim theorems about snapshots and replay -/

/-- C6: in every store reachable through the Facade (appends and
`snapshot_now` calls), `rebuild` with the snapshot store present returns
exactly what `rebuild` from sequence 1 with no snapshot returns, for any
target: snapshots never change the result of `rebuild`. -/
theorem rebuild_snapshot_transparent {σ : Type} (init : σ)
    (red : σ → Event → Except String σ) (st : Store σ)
    (h : ReachableStore init red st) (sid : String) (target : Nat) :
    rebuild st.log st.snaps sid init red target =
      rebuild st.log [] sid init red target := by
  obtain ⟨hlog, hsnap⟩ := reachable_store_inv init red st h
  rw [rebuild_char st.log st.snaps sid init red target
      (reachable_loginv _ hlog) hsnap,
    rebuild_char st.log [] sid init red target
      (reachable_loginv _ hlog) (by simp)]

/-- Closed instance of `rebuild_snapshot_transparent` at a concrete store
holding one event and one snapshot. -/
theorem rebuild_snapshot_transparent_witness :
    rebuild log1 snaps2 "s1" 0 red0 5 = rebuild log1 [] "s1" 0 red0 5 :=
  rebuild_snapshot_transparent 0 red0 ⟨log1, snaps2⟩
    (ReachableStore.stepSnapshot log1 [] "s1" 7
      (ReachableStore.stepAppend [] [] "s1" 1 "t" [] 0 log1 1
        ReachableStore.empty rfl)) "s1" 5

/-- C8: when the reducer rejects an event in the replayed range, `rebuild`
returns `ReplayError` — no partially folded state escapes, the rejected
event is still in the log, and the fold aborts at that event no matter
what follows it. -/
theorem rebuild_replay_error {σ : Type} (log : List Event)
    (snaps : List (Snapshot σ)) (sid : String) (init : σ)
    (red : σ → Event → Except String σ) (target : Nat)
    (l1 l2 : List Event) (e : Event) (stm : σ) (msg : String)
    (hread : read_range log sid (rebuildStart snaps sid target init).2 target =
      Except.ok (l1 ++ e :: l2))
    (hpre : foldEvents red (rebuildStart snaps sid target init).1 l1 =
      Except.ok stm)
    (herr : red stm e = Except.error msg) :
    rebuild log snaps sid init red target =
      Except.error StoreError.ReplayError ∧
    e ∈ streamEvents log sid ∧
    ∀ l2', foldEvents red (rebuildStart snaps sid target init).1 (l1 ++ e :: l2') =
      Except.error StoreError.ReplayError := by
  have hstop : ∀ l2',
      foldEvents red (rebuildStart snaps sid target init).1 (l1 ++ e :: l2') =
        Except.error StoreError.ReplayError := by
    intro l2'
    rw [foldEvents_append, hpre]
    show foldEvents red stm (e :: l2') = Except.error StoreError.ReplayError
    simp [foldEvents, herr]
  refine ⟨?_, ?_, hstop⟩
  · unfold rebuild
    rw [hread]
    exact hstop l2
  · rw [read_range] at hread
    by_cases hex : stream_exists log sid
    · rw [if_pos hex] at hread
      have hfil : (streamEvents log sid).filter
          (fun e => decide ((rebuildStart snaps sid target init).2 ≤ e.sequence) &&
            decide (e.sequence ≤ target)) = l1 ++ e :: l2 := by
        simpa using hread
      have hmeme : e ∈ l1 ++ e :: l2 := by simp
      rw [← hfil] at hmeme
      exact List.mem_of_mem_filter hmeme
    · rw [if_neg hex] at hread
      exact absurd hread (by simp)

/-- Closed instance of `rebuild_replay_error`: rebuilding `log1` with a
reducer that rejects its event yields `ReplayError`. -/
theorem rebuild_replay_error_witness :
    rebuild log1 [] "s1" 0 redFail 1 = Except.error StoreError.ReplayError :=
  (rebuild_replay_error log1 [] "s1" 0 redFail 1 [] [] ev1 0 "bad"
    (by rfl) (by rfl) (by rfl)).1

/-- C9: a `save` for a stream that already holds a snapshot at a sequence
greater than or equal to the given one is a no-op, and consequently the
latest snapshot sequence of every stream never decreases across any
sequence of saves. -/
theorem save_no_backward {σ : Type} (ss : List (Snapshot σ)) (sid : String)
    (seq : Nat) (blob : σ) (sv : Nat)
    (h : ∃ s ∈ ss, s.stream_id = sid ∧ seq ≤ s.sequence) :
    save ss sid seq blob sv = ss ∧
    ∀ (ss0 : List (Snapshot σ)) (reqs : List (SaveReq σ)) (sid' : String),
      snapLatestSeq ss0 sid' ≤ snapLatestSeq (reqs.foldl doSave ss0) sid' := by
  constructor
  · have hc : ss.any
        (fun s => decide (s.stream_id = sid) && decide (seq ≤ s.sequence)) = true := by
      rw [List.any_eq_true]
      obtain ⟨s, hmem, h1, h2⟩ := h
      exact ⟨s, hmem, by simp [h1, h2]⟩
    rw [save, if_pos hc]
  · intro ss0 reqs
    induction reqs generalizing ss0 with
    | nil => intro sid'; exact Nat.le_refl _
    | cons r rest ih =>
      intro sid'
      rw [List.foldl_cons]
      exact le_trans (snapLatestSeq_doSave_le ss0 r sid') (ih (doSave ss0 r) sid')

/-- Closed instance of `save_no_backward`: saving at sequence 3 over an
existing sequence-5 snapshot leaves the store unchanged. -/
theorem save_no_backward_witness :
    save snapsA "s1" 3 9 1 = snapsA :=
  (save_no_backward snapsA "s1" 3 9 1 ⟨⟨"s1", 5, 0, 1⟩, by decide, by decide, by decide⟩).1

/-! ### Claim theorems about the bootstrap -/

/-- C1: every execution of `run()` registers exactly one migration — the
single entry of version 1, description "create event store tables", kind
`Up` — against the single database `"sqlite:game.db"`, and nothing else. -/
theorem run_single_migration (sqlText : String) (tauriRunOk : Bool) :
    (run sqlText tauriRunOk).1.sql_migrations =
      [("sqlite:game.db",
        [{ version := 1
           description := "create event store tables"
           sql := sqlText
           kind := MigrationKind.Up }])] := by
  rfl

/-- C10: `run()` registers the opener plugin, the SQL plugin and the
migration list before starting the application, and has no error-returning
path: the outcome is either success or a panic with the message
"error while running tauri application". -/
theorem run_no_error_path (sqlText : String) (tauriRunOk : Bool) :
    (run sqlText tauriRunOk).1.plugins =
      ["tauri_plugin_opener", "tauri_plugin_sql"] ∧
    (run sqlText tauriRunOk).1.sql_migrations =
      [("sqlite:game.db", migrations sqlText)] ∧
    ((run sqlText tauriRunOk).2 = RunOutcome.ok ∨
     (run sqlText tauriRunOk).2 =
       RunOutcome.panicked "error while running tauri application") := by
  refine ⟨rfl, rfl, ?_⟩
  cases tauriRunOk
  · exact Or.inr rfl
  · exact Or.inl rfl

end SpaceFortress
